import Mathlib

/-!  Verification of the tic-tac-toe game core (`src/tic_tac_toe.py`).

The embedding follows the source: a `Board` holds the 3×3 grid of strings
(`" "` marks an empty cell, exactly as in the Python grid), the turn index,
the filled-square count and the pair of player marks.  `Board.move` is
`Board.move` from the source, `check_win` is `Board._check_win`,
`Board.reset_board` is `Board.reset_board`, and `validate_move` is
`TicTacToe._validate_move`.  Grid indexing uses Python list-index semantics
(`pyIdx3`): indices 0..2 are direct, -3..-1 alias from the end of the list,
and anything else raises IndexError.  -/

/-- Python list indexing into a length-3 list: indices 0..2 are direct,
-3..-1 alias from the end, anything else raises IndexError (`none`). -/
def pyIdx3 (i : Int) : Option (Fin 3) :=
  if h : 0 ≤ i ∧ i < 3 then some ⟨i.toNat, by omega⟩
  else if h2 : -3 ≤ i ∧ i < 0 then some ⟨(i + 3).toNat, by omega⟩
  else none

abbrev Grid := Fin 3 → Fin 3 → String

/-- The grid produced by `[[" "] * 3 for i in range(3)]`. -/
def emptyGrid : Grid := fun _ _ => " "

/-- Read `grid[p.1][p.2]` with Python index semantics; the `" "` fallback
stands for the IndexError case, which is never reached at the in-range
coordinates the game reads cells at. -/
def cellI (g : Grid) (p : Int × Int) : String :=
  match pyIdx3 p.1, pyIdx3 p.2 with
  | some r, some c => g r c
  | _, _ => " "

/-- Write one cell of the grid (`self._grid[row][col] = mark`). -/
def setCell (g : Grid) (r c : Fin 3) (m : String) : Grid :=
  fun r2 c2 => if r2 = r ∧ c2 = c then m else g r2 c2

structure Board where
  grid : Grid
  turn : Nat
  filled : Nat
  players : String × String
deriving DecidableEq

/-- `Board._AXES`: 3 rows, 3 columns, 2 diagonals. -/
def AXES : List (List (Int × Int)) := [
  [(0,0),(0,1),(0,2)],
  [(1,0),(1,1),(1,2)],
  [(2,0),(2,1),(2,2)],
  [(0,0),(1,0),(2,0)],
  [(0,1),(1,1),(2,1)],
  [(0,2),(1,2),(2,2)],
  [(0,0),(1,1),(2,2)],
  [(2,0),(1,1),(0,2)]]

/-- `self._players[self._turn]`; the turn index is only ever 0 or 1. -/
def pickPlayer (b : Board) : String :=
  if b.turn = 0 then b.players.1 else b.players.2

/-- The per-axis body of `Board._check_win`: keep the positions of the axis
whose cell is not `" "`; fewer than 3 means the axis is not filled; otherwise
the axis wins exactly when the set of its cell values has at most one
element. -/
def axisWin (g : Grid) (axis : List (Int × Int)) : Bool :=
  let vals := axis.filter (fun q => cellI g q ≠ " ")
  if vals.length < 3 then false
  else decide ((vals.map (fun q => cellI g q)).toFinset.card ≤ 1)

/-- `Board._check_win`: scan the axes containing `pos`, returning true as
soon as one is completely filled with a single value. -/
def check_win (g : Grid) (pos : Int × Int) : Bool :=
  AXES.any (fun axis => decide (pos ∈ axis) && axisWin g axis)

/-- The observable result of `Board.move`: the `Win` and `GameOver`
exceptions (carrying the winning mark resp. the board state at raise time),
normal return, or the IndexError Python raises on a grid access with an
index outside -3..2. -/
inductive MoveResult where
  | indexError : MoveResult
  | win : String → Board → MoveResult
  | gameOver : Board → MoveResult
  | ok : Board → MoveResult
deriving DecidableEq

/-- `int(not self._turn)`. -/
def flipTurn (t : Nat) : Nat := if t = 0 then 1 else 0

/-- `Board.move`: write the current player's mark at `pos` (no bounds or
occupancy check of its own), bump the filled count, check for a win once 5
squares are filled, raise `GameOver` when the 9th square fills, otherwise
flip the turn. -/
def Board.move (b : Board) (pos : Int × Int) : MoveResult :=
  match pyIdx3 pos.1, pyIdx3 pos.2 with
  | some r, some c =>
    let g1 : Grid := setCell b.grid r c (pickPlayer b)
    let f1 : Nat := b.filled + 1
    if 5 ≤ f1 ∧ check_win g1 pos = true then
      MoveResult.win (pickPlayer b) { b with grid := g1, filled := f1 }
    else if f1 = 9 then
      MoveResult.gameOver { b with grid := g1, filled := f1 }
    else
      MoveResult.ok { b with grid := g1, filled := f1, turn := flipTurn b.turn }
  | _, _ => MoveResult.indexError

/-- `Board.reset_board`: clear the grid and the count statistics. -/
def Board.reset_board (b : Board) : Board :=
  { b with grid := emptyGrid, turn := 0, filled := 0 }

/-- `Board.__init__`: `reset_board` then store the players. -/
def Board.init (players : String × String) : Board :=
  { grid := emptyGrid, turn := 0, filled := 0, players := players }

/-- `TicTacToe.ALLOWED_POSITIONS`. -/
def ALLOWED_POSITIONS : List (String × (Int × Int)) := [
  ("1", (0,0)), ("2", (0,1)), ("3", (0,2)),
  ("4", (1,0)), ("5", (1,1)), ("6", (1,2)),
  ("7", (2,0)), ("8", (2,1)), ("9", (2,2))]

/-- `TicTacToe._validate_move`: unmapped selectors and occupied cells raise
`InvalidPosition` with the messages of the source. -/
def validate_move (b : Board) (pos : String) : Except String (Int × Int) :=
  match ALLOWED_POSITIONS.lookup pos with
  | none => Except.error "Position does not exist"
  | some p =>
      if cellI b.grid p ≠ " " then Except.error "Position is occupied"
      else Except.ok p

/-- The result of one round of the game loop: an `InvalidPosition` rejection
(the board is untouched, the loop re-prompts) or the result of `Board.move`. -/
inductive ApplyResult where
  | invalid : String → Board → ApplyResult
  | moved : MoveResult → ApplyResult
deriving DecidableEq

/-- One round of the inner loop of `TicTacToe.main` on a structured selector:
`_validate_move` (inside `_get_player_move`) followed by `Board.move`; a
validation failure never reaches `Board.move`. -/
def apply_move (b : Board) (s : String) : ApplyResult :=
  match validate_move b s with
  | Except.error msg => ApplyResult.invalid msg b
  | Except.ok p => ApplyResult.moved (b.move p)

/-- A Position with both components in range, as `_validate_move` produces. -/
def InRange (p : Int × Int) : Prop :=
  0 ≤ p.1 ∧ p.1 < 3 ∧ 0 ≤ p.2 ∧ p.2 < 3

instance (p : Int × Int) : Decidable (InRange p) := by
  unfold InRange
  infer_instance

/-- The canonical `Fin 3` of an in-range coordinate. -/
def finOf3 (i : Int) : Fin 3 :=
  if h : 0 ≤ i ∧ i < 3 then ⟨i.toNat, by omega⟩ else 0

/-- The canonical grid location of an in-range Position. -/
def finPos (p : Int × Int) : Fin 3 × Fin 3 := (finOf3 p.1, finOf3 p.2)

/-- A fully occupied axis holding a single mark, read exactly as the game
reads cells.  This is the property `_check_win` detects. -/
def WinningLine (g : Grid) : Prop :=
  ∃ t ∈ AXES, (∀ q ∈ t, cellI g q ≠ " ") ∧ ∃ m, ∀ q ∈ t, cellI g q = m

/-- Number of grid cells holding the mark `m`. -/
def countMark (g : Grid) (m : String) : Nat :=
  (Finset.univ.filter (fun rc : Fin 3 × Fin 3 => g rc.1 rc.2 = m)).card

/-- Number of non-empty grid cells. -/
def occupiedCount (g : Grid) : Nat :=
  (Finset.univ.filter (fun rc : Fin 3 × Fin 3 => g rc.1 rc.2 ≠ " ")).card

/-- The contract of the orchestrator (spec section 4.2): the two marks are
distinct, and a mark is never the `" "` empty-cell sentinel. -/
def MarksOK (pl : String × String) : Prop :=
  pl.1 ≠ pl.2 ∧ pl.1 ≠ " " ∧ pl.2 ≠ " "

instance (pl : String × String) : Decidable (MarksOK pl) := by
  unfold MarksOK
  infer_instance

/-- State invariant of a board on which `n` moves have been played since the
last reset, every one of them legal (in range, onto an empty cell) and
answered with Continue. -/
structure Reach (pl : String × String) (b : Board) (n : Nat) : Prop where
  players : b.players = pl
  filled : b.filled = n
  turn : b.turn = n % 2
  cells : ∀ r c : Fin 3,
    b.grid r c = " " ∨ b.grid r c = pl.1 ∨ b.grid r c = pl.2
  count1 : countMark b.grid pl.1 = (n + 1) / 2
  count2 : countMark b.grid pl.2 = n / 2
  countE : countMark b.grid " " + n = 9
  noLine : ¬ WinningLine b.grid

/-- The board state `Board.move` has built right after the grid write and the
counter bump, before any check or turn flip. -/
def Board.placed (b : Board) (pos : Int × Int) : Board :=
  { b with
    grid := setCell b.grid (finPos pos).1 (finPos pos).2 (pickPlayer b),
    filled := b.filled + 1 }

/-- A sequence of moves from `b`, each legal (in range, empty target cell)
and answered by `Board.move` with a normal Continue return, ending in board
`bf`. -/
inductive LegalRun : Board → List (Int × Int) → Board → Prop where
  | nil (b : Board) : LegalRun b [] b
  | cons {b : Board} {p : Int × Int} {b2 : Board} {ms : List (Int × Int)}
      {bf : Board} (hp : InRange p) (hemp : cellI b.grid p = " ")
      (hmv : b.move p = MoveResult.ok b2) (htail : LegalRun b2 ms bf) :
      LegalRun b (p :: ms) bf

/-- Modelled from the spec: the Outcome of applying a move, one of
Continue, Win(Mark), Draw. -/
inductive SpecOutcome where
  | ongoing : SpecOutcome
  | winBy : String → SpecOutcome
  | draw : SpecOutcome
deriving DecidableEq

/-- Modelled from the spec: the 8 WinLines (3 rows, 3 columns, 2
diagonals), each a triple of Positions. -/
def specLines : List ((Int × Int) × (Int × Int) × (Int × Int)) := [
  ((0,0),(0,1),(0,2)), ((1,0),(1,1),(1,2)), ((2,0),(2,1),(2,2)),
  ((0,0),(1,0),(2,0)), ((0,1),(1,1),(2,1)), ((0,2),(1,2),(2,2)),
  ((0,0),(1,1),(2,2)), ((2,0),(1,1),(0,2))]

/-- Modelled from the spec: a WinLine wins when all 3 of its cells are
occupied and all 3 hold the same Mark. -/
def specLineWin (g : Grid) (t : (Int × Int) × (Int × Int) × (Int × Int)) :
    Bool :=
  decide (cellI g t.1 ≠ " ") && decide (cellI g t.2.1 ≠ " ") &&
    decide (cellI g t.2.2 ≠ " ") &&
    decide (cellI g t.1 = cellI g t.2.1) &&
    decide (cellI g t.2.1 = cellI g t.2.2)

/-- Modelled from the spec: the brute-force full-board scan evaluated after
a move — if any WinLine is fully occupied with one Mark the outcome is
Win(mark of the mover); if no line wins and the occupied count reaches 9,
Draw; otherwise Continue. -/
def brute_scan (g : Grid) (mover : String) (filled : Nat) : SpecOutcome :=
  if specLines.any (specLineWin g) then SpecOutcome.winBy mover
  else if filled = 9 then SpecOutcome.draw
  else SpecOutcome.ongoing

/-- Interpretation of a `Board.move` result as the Outcome of the spec: the
`Win` exception means Win(mark), `GameOver` means Draw, a normal return
means Continue; an IndexError has no Outcome. -/
def outcomeOf : MoveResult → Option SpecOutcome
  | MoveResult.indexError => none
  | MoveResult.win m _ => some (SpecOutcome.winBy m)
  | MoveResult.gameOver _ => some SpecOutcome.draw
  | MoveResult.ok _ => some SpecOutcome.ongoing

/-- The board state carried by a non-IndexError `Board.move` result. -/
def boardOf : MoveResult → Option Board
  | MoveResult.indexError => none
  | MoveResult.win _ b => some b
  | MoveResult.gameOver b => some b
  | MoveResult.ok b => some b

/-- A fresh board for marks X and O. -/
def boardXO : Board := Board.init ("X", "O")

/-- Win scenario boards: X plays (0,0),(0,1),(0,2), O plays (1,1),(1,0). -/
def w1 : Board := ⟨setCell boardXO.grid 0 0 "X", 1, 1, ("X", "O")⟩

def w2 : Board := ⟨setCell w1.grid 1 1 "O", 0, 2, ("X", "O")⟩

def w3 : Board := ⟨setCell w2.grid 0 1 "X", 1, 3, ("X", "O")⟩

def w4 : Board := ⟨setCell w3.grid 1 0 "O", 0, 4, ("X", "O")⟩

/-- The board inside the `Win` exception of the 5th move of the scenario. -/
def wonBoard : Board := ⟨setCell w4.grid 0 2 "X", 0, 5, ("X", "O")⟩

/-- Draw scenario boards: moves
(0,0)X,(0,1)O,(0,2)X,(1,1)O,(1,0)X,(1,2)O,(2,1)X,(2,0)O then (2,2)X. -/
def e1 : Board := ⟨setCell boardXO.grid 0 0 "X", 1, 1, ("X", "O")⟩

def e2 : Board := ⟨setCell e1.grid 0 1 "O", 0, 2, ("X", "O")⟩

def e3 : Board := ⟨setCell e2.grid 0 2 "X", 1, 3, ("X", "O")⟩

def e4 : Board := ⟨setCell e3.grid 1 1 "O", 0, 4, ("X", "O")⟩

def e5 : Board := ⟨setCell e4.grid 1 0 "X", 1, 5, ("X", "O")⟩

def e6 : Board := ⟨setCell e5.grid 1 2 "O", 0, 6, ("X", "O")⟩

def e7 : Board := ⟨setCell e6.grid 2 1 "X", 1, 7, ("X", "O")⟩

def e8 : Board := ⟨setCell e7.grid 2 0 "O", 0, 8, ("X", "O")⟩

/-- The board inside the `GameOver` exception of the 9th move of the draw
scenario. -/
def e9 : Board := ⟨setCell e8.grid 2 2 "X", 0, 9, ("X", "O")⟩

theorem pyIdx3_inRange (i : Int) (h0 : 0 ≤ i) (h3 : i < 3) :
    pyIdx3 i = some (finOf3 i) := by
  simp only [pyIdx3, finOf3]
  rw [dif_pos ⟨h0, h3⟩, dif_pos ⟨h0, h3⟩]

theorem finOf3_inj (i j : Int) (hi0 : 0 ≤ i) (hi3 : i < 3) (hj0 : 0 ≤ j)
    (hj3 : j < 3) (h : finOf3 i = finOf3 j) : i = j := by
  unfold finOf3 at h
  rw [dif_pos (And.intro hi0 hi3), dif_pos (And.intro hj0 hj3)] at h
  rw [Fin.mk.injEq] at h
  omega

theorem finPos_inj (p q : Int × Int) (hp : InRange p) (hq : InRange q)
    (h : finPos p = finPos q) : p = q := by
  obtain ⟨hp1, hp2, hp3, hp4⟩ := hp
  obtain ⟨hq1, hq2, hq3, hq4⟩ := hq
  simp only [finPos, Prod.mk.injEq] at h
  have e1 := finOf3_inj _ _ hp1 hp2 hq1 hq2 h.1
  have e2 := finOf3_inj _ _ hp3 hp4 hq3 hq4 h.2
  exact Prod.ext e1 e2

theorem cellI_inRange (g : Grid) (p : Int × Int) (hp : InRange p) :
    cellI g p = g (finPos p).1 (finPos p).2 := by
  obtain ⟨h1, h2, h3, h4⟩ := hp
  simp only [cellI, finPos, pyIdx3_inRange _ h1 h2, pyIdx3_inRange _ h3 h4]

theorem setCell_self (g : Grid) (r c : Fin 3) (m : String) :
    setCell g r c m r c = m := by
  simp [setCell]

theorem setCell_other (g : Grid) (r c r2 c2 : Fin 3) (m : String)
    (h : ¬(r2 = r ∧ c2 = c)) : setCell g r c m r2 c2 = g r2 c2 := by
  simp only [setCell, if_neg h]

theorem cellI_setCell_of_ne (g : Grid) (p q : Int × Int) (m : String)
    (hp : InRange p) (hq : InRange q) (hne : q ≠ p) :
    cellI (setCell g (finPos p).1 (finPos p).2 m) q = cellI g q := by
  rw [cellI_inRange _ _ hq, cellI_inRange _ _ hq]
  apply setCell_other
  intro hcontra
  exact hne (finPos_inj q p hq hp (Prod.ext hcontra.1 hcontra.2))

theorem cellI_setCell_self (g : Grid) (p : Int × Int) (m : String)
    (hp : InRange p) :
    cellI (setCell g (finPos p).1 (finPos p).2 m) p = m := by
  rw [cellI_inRange _ _ hp]
  exact setCell_self ..

theorem axes_length : ∀ t ∈ AXES, t.length = 3 := by decide

theorem axes_nodup : ∀ t ∈ AXES, t.Nodup := by decide

theorem axes_inRange : ∀ t ∈ AXES, ∀ q ∈ t, InRange q := by decide

theorem axisWin_iff (g : Grid) (t : List (Int × Int)) (h3 : t.length = 3) :
    axisWin g t = true ↔
      (∀ q ∈ t, cellI g q ≠ " ") ∧
      ∀ q ∈ t, ∀ q2 ∈ t, cellI g q = cellI g q2 := by
  simp only [axisWin]
  by_cases hall : ∀ q ∈ t, cellI g q ≠ " "
  · have hfe : t.filter (fun q => decide (cellI g q ≠ " ")) = t := by
      rw [List.filter_eq_self]
      intro a ha
      exact decide_eq_true (hall a ha)
    rw [hfe, h3]
    simp only [Nat.lt_irrefl, if_false, decide_eq_true_eq]
    constructor
    · intro hcard
      refine ⟨hall, fun q hq q2 hq2 => ?_⟩
      exact Finset.card_le_one.mp hcard _
        (List.mem_toFinset.mpr (List.mem_map_of_mem _ hq))
        _ (List.mem_toFinset.mpr (List.mem_map_of_mem _ hq2))
    · rintro ⟨-, hsame⟩
      rw [Finset.card_le_one]
      intro a ha b hb
      obtain ⟨q, hq, rfl⟩ := List.mem_map.mp (List.mem_toFinset.mp ha)
      obtain ⟨q2, hq2, rfl⟩ := List.mem_map.mp (List.mem_toFinset.mp hb)
      exact hsame q hq q2 hq2
  · have hlt : (t.filter (fun q => decide (cellI g q ≠ " "))).length < 3 := by
      rcases Nat.lt_or_ge (t.filter (fun q => decide (cellI g q ≠ " "))).length 3
        with h | h
      · exact h
      · exfalso
        have hle : (t.filter (fun q => decide (cellI g q ≠ " "))).length ≤ 3 :=
          h3 ▸ List.length_filter_le _ t
        have heq : t.filter (fun q => decide (cellI g q ≠ " ")) = t :=
          (List.filter_sublist t).eq_of_length (by omega)
        rw [List.filter_eq_self] at heq
        exact hall (fun q hq => of_decide_eq_true (heq q hq))
    rw [if_pos hlt]
    simp only [Bool.false_eq_true, false_iff]
    exact fun hcontra => hall hcontra.1

theorem winningLine_iff (g : Grid) :
    WinningLine g ↔ ∃ t ∈ AXES, axisWin g t = true := by
  constructor
  · rintro ⟨t, ht, hocc, m, hm⟩
    refine ⟨t, ht, (axisWin_iff g t (axes_length t ht)).mpr ⟨hocc, ?_⟩⟩
    intro q hq q2 hq2
    rw [hm q hq, hm q2 hq2]
  · rintro ⟨t, ht, hw⟩
    obtain ⟨hocc, hsame⟩ := (axisWin_iff g t (axes_length t ht)).mp hw
    have hne : t ≠ [] := by
      intro hcontra
      have := axes_length t ht
      rw [hcontra] at this
      simp at this
    obtain ⟨a, ha⟩ := List.exists_mem_of_ne_nil t hne
    exact ⟨t, ht, hocc, cellI g a, fun q hq => hsame q hq a ha⟩

theorem check_win_iff (g : Grid) (pos : Int × Int) :
    check_win g pos = true ↔ ∃ t ∈ AXES, pos ∈ t ∧ axisWin g t = true := by
  simp only [check_win, List.any_eq_true, Bool.and_eq_true, decide_eq_true_eq]

theorem check_win_imp_winningLine (g : Grid) (pos : Int × Int)
    (h : check_win g pos = true) : WinningLine g := by
  obtain ⟨t, ht, -, hw⟩ := (check_win_iff g pos).mp h
  exact (winningLine_iff g).mpr ⟨t, ht, hw⟩

theorem countMark_setCell_self (g : Grid) (r c : Fin 3) (m : String)
    (hold : g r c = " ") (hm : m ≠ " ") :
    countMark (setCell g r c m) m = countMark g m + 1 := by
  unfold countMark
  have hset : Finset.univ.filter
      (fun rc : Fin 3 × Fin 3 => setCell g r c m rc.1 rc.2 = m) =
      insert (r, c)
        (Finset.univ.filter (fun rc : Fin 3 × Fin 3 => g rc.1 rc.2 = m)) := by
    ext rc
    simp only [Finset.mem_filter, Finset.mem_univ, true_and, Finset.mem_insert]
    constructor
    · intro hrc
      by_cases hpos : rc.1 = r ∧ rc.2 = c
      · exact Or.inl (Prod.ext hpos.1 hpos.2)
      · exact Or.inr (by rw [setCell_other g r c _ _ m hpos] at hrc; exact hrc)
    · rintro (rfl | hrc)
      · exact setCell_self ..
      · by_cases hpos : rc.1 = r ∧ rc.2 = c
        · exfalso
          rw [← hpos.1, ← hpos.2] at hold
          rw [hold] at hrc
          exact hm hrc.symm
        · rw [setCell_other g r c _ _ m hpos]
          exact hrc
  rw [hset, Finset.card_insert_of_not_mem]
  simp only [Finset.mem_filter, Finset.mem_univ, true_and]
  intro hcontra
  rw [hold] at hcontra
  exact hm hcontra.symm

theorem countMark_setCell_other (g : Grid) (r c : Fin 3) (m m2 : String)
    (hold : g r c ≠ m2) (hnew : m ≠ m2) :
    countMark (setCell g r c m) m2 = countMark g m2 := by
  unfold countMark
  congr 1
  apply Finset.filter_congr
  intro rc _
  by_cases hpos : rc.1 = r ∧ rc.2 = c
  · rw [setCell, if_pos hpos]
    rw [← hpos.1, ← hpos.2] at hold
    simp [hnew, hold]
  · rw [setCell_other g r c _ _ m hpos]

theorem countMark_setCell_empty (g : Grid) (r c : Fin 3) (m : String)
    (hold : g r c = " ") (hm : m ≠ " ") :
    countMark (setCell g r c m) " " + 1 = countMark g " " := by
  unfold countMark
  have hset : Finset.univ.filter (fun rc : Fin 3 × Fin 3 => g rc.1 rc.2 = " ") =
      insert (r, c) (Finset.univ.filter
        (fun rc : Fin 3 × Fin 3 => setCell g r c m rc.1 rc.2 = " ")) := by
    ext rc
    simp only [Finset.mem_filter, Finset.mem_univ, true_and, Finset.mem_insert]
    constructor
    · intro hrc
      by_cases hpos : rc.1 = r ∧ rc.2 = c
      · exact Or.inl (Prod.ext hpos.1 hpos.2)
      · exact Or.inr (by rw [setCell_other g r c _ _ m hpos]; exact hrc)
    · rintro (rfl | hrc)
      · exact hold
      · by_cases hpos : rc.1 = r ∧ rc.2 = c
        · rw [← hpos.1, ← hpos.2] at hold
          exact hold
        · rw [setCell_other g r c _ _ m hpos] at hrc
          exact hrc
  rw [hset, Finset.card_insert_of_not_mem]
  simp only [Finset.mem_filter, Finset.mem_univ, true_and]
  rw [setCell, if_pos ⟨rfl, rfl⟩]
  exact fun hcontra => hm hcontra

/-- Three distinct cells holding `m` force at least three cells of `m`. -/
theorem countMark_ge_three (g : Grid) (m : String) (x y z : Fin 3 × Fin 3)
    (hxy : x ≠ y) (hxz : x ≠ z) (hyz : y ≠ z)
    (hx : g x.1 x.2 = m) (hy : g y.1 y.2 = m) (hz : g z.1 z.2 = m) :
    3 ≤ countMark g m := by
  unfold countMark
  have hsub : ({x, y, z} : Finset (Fin 3 × Fin 3)) ⊆
      Finset.univ.filter (fun rc : Fin 3 × Fin 3 => g rc.1 rc.2 = m) := by
    intro a ha
    simp only [Finset.mem_insert, Finset.mem_singleton] at ha
    rcases ha with rfl | rfl | rfl <;>
      simp only [Finset.mem_filter, Finset.mem_univ, true_and] <;>
      assumption
  have hcard : ({x, y, z} : Finset (Fin 3 × Fin 3)).card = 3 := by
    rw [Finset.card_insert_of_not_mem (by simp [hxy, hxz]),
      Finset.card_insert_of_not_mem (by simp [hyz]), Finset.card_singleton]
  calc 3 = ({x, y, z} : Finset (Fin 3 × Fin 3)).card := hcard.symm
    _ ≤ _ := Finset.card_le_card hsub

/-- A winning line of mark `m` forces at least three cells of `m`. -/
theorem countMark_of_line (g : Grid) (m : String) (t : List (Int × Int))
    (ht : t ∈ AXES) (hall : ∀ q ∈ t, cellI g q = m) (hm : m ≠ " ") :
    3 ≤ countMark g m := by
  obtain ⟨x, y, z, rfl⟩ := List.length_eq_three.mp (axes_length t ht)
  have hnodup := axes_nodup _ ht
  simp only [List.nodup_cons, List.mem_cons, List.mem_singleton,
    List.not_mem_nil, or_false, List.nodup_nil, and_true] at hnodup
  have hir := axes_inRange _ ht
  have hirx := hir x (by simp)
  have hiry := hir y (by simp)
  have hirz := hir z (by simp)
  have hcx : g (finPos x).1 (finPos x).2 = m := by
    rw [← cellI_inRange g x hirx]; exact hall x (by simp)
  have hcy : g (finPos y).1 (finPos y).2 = m := by
    rw [← cellI_inRange g y hiry]; exact hall y (by simp)
  have hcz : g (finPos z).1 (finPos z).2 = m := by
    rw [← cellI_inRange g z hirz]; exact hall z (by simp)
  have hxy : x ≠ y := fun h => hnodup.1 (Or.inl h)
  have hxz : x ≠ z := fun h => hnodup.1 (Or.inr h)
  have hyz : y ≠ z := hnodup.2.1
  refine countMark_ge_three g m (finPos x) (finPos y) (finPos z) ?_ ?_ ?_
    hcx hcy hcz
  · exact fun hcon => hxy (finPos_inj x y hirx hiry hcon)
  · exact fun hcon => hxz (finPos_inj x z hirx hirz hcon)
  · exact fun hcon => hyz (finPos_inj y z hiry hirz hcon)

theorem cellI_empty (p : Int × Int) : cellI emptyGrid p = " " := by
  cases h1 : pyIdx3 p.1 <;> cases h2 : pyIdx3 p.2 <;>
    simp [cellI, h1, h2, emptyGrid]

theorem countMark_empty_of_ne (m : String) (hm : m ≠ " ") :
    countMark emptyGrid m = 0 := by
  unfold countMark
  rw [Finset.card_eq_zero]
  apply Finset.filter_false_of_mem
  intro rc _
  exact fun hcontra => hm hcontra.symm

theorem reach_init (pl : String × String) (hpl : MarksOK pl) :
    Reach pl (Board.init pl) 0 := by
  refine ⟨rfl, rfl, rfl, fun r c => Or.inl rfl, ?_, ?_, ?_, ?_⟩
  · exact countMark_empty_of_ne pl.1 hpl.2.1
  · exact countMark_empty_of_ne pl.2 hpl.2.2
  · show countMark emptyGrid " " + 0 = 9
    decide
  · rintro ⟨t, ht, hocc, -⟩
    have hne : t ≠ [] := by
      intro hcontra
      have := axes_length t ht
      rw [hcontra] at this
      simp at this
    obtain ⟨a, ha⟩ := List.exists_mem_of_ne_nil t hne
    exact hocc a ha (cellI_empty a)

theorem move_inRange (b : Board) (p : Int × Int) (hp : InRange p) :
    b.move p =
      if 5 ≤ b.filled + 1 ∧ check_win (b.placed p).grid p = true then
        MoveResult.win (pickPlayer b) (b.placed p)
      else if b.filled + 1 = 9 then MoveResult.gameOver (b.placed p)
      else MoveResult.ok { b.placed p with turn := flipTurn b.turn } := by
  obtain ⟨h1, h2, h3, h4⟩ := hp
  simp only [Board.move, pyIdx3_inRange _ h1 h2, pyIdx3_inRange _ h3 h4]
  rfl

/-- A full line of one mark needs three cells of that mark, hence at least
five moves in total when the marks alternate. -/
theorem winningLine_five (pl : String × String) (hpl : MarksOK pl) (g : Grid)
    (k : Nat)
    (hcells : ∀ r c : Fin 3, g r c = " " ∨ g r c = pl.1 ∨ g r c = pl.2)
    (hc1 : countMark g pl.1 = (k + 1) / 2) (hc2 : countMark g pl.2 = k / 2)
    (hwl : WinningLine g) : 5 ≤ k := by
  obtain ⟨t, ht, hocc, m, hm⟩ := hwl
  have hne : t ≠ [] := by
    intro hcontra
    have := axes_length t ht
    rw [hcontra] at this
    simp at this
  obtain ⟨a, ha⟩ := List.exists_mem_of_ne_nil t hne
  have hira := axes_inRange t ht a ha
  have hma : cellI g a = m := hm a ha
  have hmne : m ≠ " " := hma ▸ hocc a ha
  have hmem : m = pl.1 ∨ m = pl.2 := by
    have hcell := hcells (finPos a).1 (finPos a).2
    rw [← cellI_inRange g a hira, hma] at hcell
    rcases hcell with h | h | h
    · exact absurd h hmne
    · exact Or.inl h
    · exact Or.inr h
  have h3 : 3 ≤ countMark g m := countMark_of_line g m t ht hm hmne
  rcases hmem with rfl | rfl
  · rw [hc1] at h3; omega
  · rw [hc2] at h3; omega

theorem flipTurn_mod (n : Nat) : flipTurn (n % 2) = (n + 1) % 2 := by
  rcases Nat.mod_two_eq_zero_or_one n with h | h <;> simp [flipTurn, h] <;> omega

/-- Bookkeeping facts about the board right after the grid write. -/
theorem placed_props (pl : String × String) (hpl : MarksOK pl) {b : Board}
    {n : Nat} (hR : Reach pl b n) {p : Int × Int} (hp : InRange p)
    (hemp : cellI b.grid p = " ") :
    (b.placed p).players = pl ∧ (b.placed p).filled = n + 1 ∧
    (b.placed p).turn = n % 2 ∧
    (∀ r c : Fin 3, (b.placed p).grid r c = " " ∨
      (b.placed p).grid r c = pl.1 ∨ (b.placed p).grid r c = pl.2) ∧
    countMark (b.placed p).grid pl.1 = (n + 1 + 1) / 2 ∧
    countMark (b.placed p).grid pl.2 = (n + 1) / 2 ∧
    countMark (b.placed p).grid " " + (n + 1) = 9 := by
  obtain ⟨hpv, hf, ht, hcells, hc1, hc2, hcE, hnl⟩ := hR
  have hempty : b.grid (finPos p).1 (finPos p).2 = " " := by
    rw [← cellI_inRange b.grid p hp]
    exact hemp
  have hpick : pickPlayer b = pl.1 ∨ pickPlayer b = pl.2 := by
    rw [pickPlayer, hpv, ht]
    rcases Nat.mod_two_eq_zero_or_one n with h | h <;> simp [h]
  have hcellsP : ∀ r c : Fin 3, (b.placed p).grid r c = " " ∨
      (b.placed p).grid r c = pl.1 ∨ (b.placed p).grid r c = pl.2 := by
    intro r c
    by_cases hpos : r = (finPos p).1 ∧ c = (finPos p).2
    · have hcell : (b.placed p).grid r c = pickPlayer b := by
        show setCell _ _ _ _ r c = _
        rw [hpos.1, hpos.2]
        exact setCell_self ..
      rw [hcell]
      rcases hpick with h | h
      · exact Or.inr (Or.inl h)
      · exact Or.inr (Or.inr h)
    · have hcell : (b.placed p).grid r c = b.grid r c :=
        setCell_other _ _ _ _ _ _ hpos
      rw [hcell]
      exact hcells r c
  have hE : countMark (b.placed p).grid " " + (n + 1) = 9 := by
    have := countMark_setCell_empty b.grid (finPos p).1 (finPos p).2
      (pickPlayer b) hempty ?_
    · show countMark (setCell _ _ _ _) " " + (n + 1) = 9
      omega
    · rw [pickPlayer, hpv, ht]
      rcases Nat.mod_two_eq_zero_or_one n with h | h <;> simp [h]
      · exact hpl.2.1
      · exact hpl.2.2
  refine ⟨hpv, by show b.filled + 1 = n + 1; omega,
    by show b.turn = n % 2; exact ht, hcellsP, ?_, ?_, hE⟩
  · show countMark (setCell _ _ _ _ ) pl.1 = (n + 1 + 1) / 2
    rcases Nat.mod_two_eq_zero_or_one n with h | h
    · have hpick : pickPlayer b = pl.1 := by rw [pickPlayer, hpv, ht, h]; simp
      rw [hpick,
        countMark_setCell_self b.grid _ _ pl.1 hempty hpl.2.1, hc1]
      omega
    · have hpick : pickPlayer b = pl.2 := by rw [pickPlayer, hpv, ht, h]; simp
      rw [hpick, countMark_setCell_other b.grid _ _ pl.2 pl.1
        (by rw [hempty]; exact fun hcon => hpl.2.1 hcon.symm)
        (fun hcon => hpl.1 hcon.symm), hc1]
      omega
  · show countMark (setCell _ _ _ _ ) pl.2 = (n + 1) / 2
    rcases Nat.mod_two_eq_zero_or_one n with h | h
    · have hpick : pickPlayer b = pl.1 := by rw [pickPlayer, hpv, ht, h]; simp
      rw [hpick, countMark_setCell_other b.grid _ _ pl.1 pl.2
        (by rw [hempty]; exact fun hcon => hpl.2.2 hcon.symm) hpl.1, hc2]
      omega
    · have hpick : pickPlayer b = pl.2 := by rw [pickPlayer, hpv, ht, h]; simp
      rw [hpick,
        countMark_setCell_self b.grid _ _ pl.2 hempty hpl.2.2, hc2]
      omega

/-- Exactly which result `Board.move` returns on a legal move, phrased by
whether the post-write grid holds a full line and whether it fills the 9th
square. -/
theorem move_cases (pl : String × String) (hpl : MarksOK pl) {b : Board}
    {n : Nat} (hR : Reach pl b n) {p : Int × Int} (hp : InRange p)
    (hemp : cellI b.grid p = " ") :
    (WinningLine (b.placed p).grid →
        b.move p = MoveResult.win (pickPlayer b) (b.placed p)) ∧
    (¬ WinningLine (b.placed p).grid → n + 1 = 9 →
        b.move p = MoveResult.gameOver (b.placed p)) ∧
    (¬ WinningLine (b.placed p).grid → n + 1 ≠ 9 →
        b.move p = MoveResult.ok { b.placed p with turn := flipTurn b.turn }) := by
  obtain ⟨hw1, hw2, hw3, hw4, hw5, hw6, hw7⟩ := placed_props pl hpl hR hp hemp
  rw [move_inRange b p hp, hR.filled]
  refine ⟨?_, ?_, ?_⟩
  · intro hwl
    have h5 : 5 ≤ n + 1 :=
      winningLine_five pl hpl (b.placed p).grid (n + 1) hw4 hw5 hw6 hwl
    have hcw : check_win (b.placed p).grid p = true := by
      obtain ⟨t, ht, hocc, m, hm⟩ := hwl
      have hmem : p ∈ t := by
        by_contra hnp
        apply hR.noLine
        refine ⟨t, ht, ?_, m, ?_⟩
        · intro q hq
          have hrw := cellI_setCell_of_ne b.grid p q (pickPlayer b) hp
            (axes_inRange t ht q hq) (fun hcon => hnp (hcon ▸ hq))
          show cellI b.grid q ≠ " "
          rw [← hrw]
          exact hocc q hq
        · intro q hq
          have hrw := cellI_setCell_of_ne b.grid p q (pickPlayer b) hp
            (axes_inRange t ht q hq) (fun hcon => hnp (hcon ▸ hq))
          rw [← hrw]
          exact hm q hq
      apply (check_win_iff _ p).mpr
      refine ⟨t, ht, hmem, (axisWin_iff _ t (axes_length t ht)).mpr
        ⟨hocc, ?_⟩⟩
      intro q hq q2 hq2
      rw [hm q hq, hm q2 hq2]
    rw [if_pos ⟨h5, hcw⟩]
  · intro hwl h9
    have hcw : ¬ (5 ≤ n + 1 ∧ check_win (b.placed p).grid p = true) := by
      rintro ⟨-, hcon⟩
      exact hwl (check_win_imp_winningLine _ p hcon)
    rw [if_neg hcw, if_pos h9]
  · intro hwl h9
    have hcw : ¬ (5 ≤ n + 1 ∧ check_win (b.placed p).grid p = true) := by
      rintro ⟨-, hcon⟩
      exact hwl (check_win_imp_winningLine _ p hcon)
    rw [if_neg hcw, if_neg h9]

/-- One accepted Continue move preserves the invariant. -/
theorem reach_step (pl : String × String) (hpl : MarksOK pl) {b : Board}
    {n : Nat} {p : Int × Int} {b2 : Board} (hR : Reach pl b n)
    (hp : InRange p) (hemp : cellI b.grid p = " ")
    (hok : b.move p = MoveResult.ok b2) : Reach pl b2 (n + 1) := by
  obtain ⟨hwin, hgo, hokk⟩ := move_cases pl hpl hR hp hemp
  by_cases hwl : WinningLine (b.placed p).grid
  · rw [hwin hwl] at hok
    exact absurd hok (by simp)
  by_cases h9 : n + 1 = 9
  · rw [hgo hwl h9] at hok
    exact absurd hok (by simp)
  rw [hokk hwl h9] at hok
  have hb2 : b2 = { b.placed p with turn := flipTurn b.turn } := by
    injection hok with h
    exact h.symm
  subst hb2
  obtain ⟨hw1, hw2, hw3, hw4, hw5, hw6, hw7⟩ := placed_props pl hpl hR hp hemp
  exact {
    players := hw1
    filled := hw2
    turn := by
      show flipTurn b.turn = (n + 1) % 2
      rw [hR.turn, flipTurn_mod]
    cells := hw4
    count1 := hw5
    count2 := hw6
    countE := hw7
    noLine := hwl }

theorem reach_run (pl : String × String) (hpl : MarksOK pl) {b : Board}
    {ms : List (Int × Int)} {bf : Board} {n : Nat} (hR : Reach pl b n)
    (hrun : LegalRun b ms bf) : Reach pl bf (n + ms.length) := by
  induction hrun generalizing n with
  | nil b => simpa using hR
  | cons hp hemp hmv htail ih =>
      have h2 := ih (reach_step pl hpl hR hp hemp hmv)
      rw [List.length_cons,
        show ∀ k : Nat, n + (k + 1) = n + 1 + k from fun k => by omega]
      exact h2

/-- Every board reached by a legal Continue run from a fresh board satisfies
the invariant. -/
theorem reach_of_run (pl : String × String) (hpl : MarksOK pl)
    {ms : List (Int × Int)} {bf : Board}
    (hrun : LegalRun (Board.init pl) ms bf) : Reach pl bf ms.length := by
  have := reach_run pl hpl (reach_init pl hpl) hrun
  simpa using this

/-- Inversion of `Board.move`: either an IndexError, or one of the three
outcomes on the written board. -/
theorem move_inv (b : Board) (p : Int × Int) :
    b.move p = MoveResult.indexError ∨
    ∃ r c, pyIdx3 p.1 = some r ∧ pyIdx3 p.2 = some c ∧
      (b.move p =
          MoveResult.win (pickPlayer b)
            { b with grid := setCell b.grid r c (pickPlayer b),
                     filled := b.filled + 1 } ∨
        b.move p =
          MoveResult.gameOver
            { b with grid := setCell b.grid r c (pickPlayer b),
                     filled := b.filled + 1 } ∨
        b.move p =
          MoveResult.ok
            { b with grid := setCell b.grid r c (pickPlayer b),
                     filled := b.filled + 1, turn := flipTurn b.turn }) := by
  unfold Board.move
  cases h1 : pyIdx3 p.1 with
  | none => exact Or.inl rfl
  | some r =>
    cases h2 : pyIdx3 p.2 with
    | none => exact Or.inl rfl
    | some c =>
      refine Or.inr ⟨r, c, rfl, rfl, ?_⟩
      dsimp only
      split_ifs
      · exact Or.inl rfl
      · exact Or.inr (Or.inl rfl)
      · exact Or.inr (Or.inr rfl)

theorem lookup_mem (l : List (String × (Int × Int))) (s : String)
    (p : Int × Int) (h : l.lookup s = some p) : (s, p) ∈ l := by
  induction l with
  | nil => simp [List.lookup] at h
  | cons hd tl ih =>
      rw [List.lookup_cons] at h
      split at h
      · next heq =>
          simp at heq
          cases h
          subst heq
          exact List.mem_cons.mpr (Or.inl rfl)
      · exact List.mem_cons.mpr (Or.inr (ih h))

/-- Every Position `_validate_move` can produce is in range. -/
theorem lookup_inRange (s : String) (p : Int × Int)
    (h : ALLOWED_POSITIONS.lookup s = some p) : InRange p := by
  have hmem := lookup_mem _ _ _ h
  simp only [ALLOWED_POSITIONS, List.mem_cons, List.not_mem_nil,
    or_false, Prod.mk.injEq] at hmem
  rcases hmem with h | h | h | h | h | h | h | h | h <;> rw [h.2] <;> decide

theorem specLineWin_eq_axisWin (g : Grid) (x y z : Int × Int) :
    specLineWin g (x, y, z) = true ↔ axisWin g [x, y, z] = true := by
  rw [axisWin_iff g [x, y, z] rfl]
  simp only [specLineWin, Bool.and_eq_true, decide_eq_true_eq]
  constructor
  · rintro ⟨⟨⟨⟨h1, h2⟩, h3⟩, e1⟩, e2⟩
    have hval : ∀ w ∈ [x, y, z], cellI g w = cellI g x := by
      intro w hw
      rcases List.mem_cons.mp hw with rfl | hw
      · rfl
      rcases List.mem_cons.mp hw with rfl | hw
      · exact e1.symm
      rcases List.mem_cons.mp hw with rfl | hw
      · exact (e1.trans e2).symm
      · exact absurd hw (List.not_mem_nil w)
    refine ⟨?_, ?_⟩
    · intro q hq
      rcases List.mem_cons.mp hq with rfl | hq
      · exact h1
      rcases List.mem_cons.mp hq with rfl | hq
      · exact h2
      rcases List.mem_cons.mp hq with rfl | hq
      · exact h3
      · exact absurd hq (List.not_mem_nil q)
    · intro q hq q2 hq2
      rw [hval q hq, hval q2 hq2]
  · rintro ⟨hocc, hsame⟩
    have hx : x ∈ [x, y, z] := by simp
    have hy : y ∈ [x, y, z] := by simp
    have hz : z ∈ [x, y, z] := by simp
    exact ⟨⟨⟨⟨hocc x hx, hocc y hy⟩, hocc z hz⟩, hsame x hx y hy⟩,
      hsame y hy z hz⟩

/-- The full-board scan of the spec finds a winning line exactly when one
exists. -/
theorem specAny_iff (g : Grid) :
    specLines.any (specLineWin g) = true ↔ WinningLine g := by
  rw [winningLine_iff]
  constructor
  · intro h
    obtain ⟨tr, htr, hw⟩ := List.any_eq_true.mp h
    simp only [specLines, List.mem_cons, List.not_mem_nil, or_false] at htr
    rcases htr with rfl | rfl | rfl | rfl | rfl | rfl | rfl | rfl <;>
      · refine ⟨_, ?_, (specLineWin_eq_axisWin g _ _ _).mp hw⟩
        decide
  · rintro ⟨t, ht, hw⟩
    apply List.any_eq_true.mpr
    simp only [AXES, List.mem_cons, List.not_mem_nil, or_false] at ht
    rcases ht with rfl | rfl | rfl | rfl | rfl | rfl | rfl | rfl <;>
      · refine ⟨_, ?_, (specLineWin_eq_axisWin g _ _ _).mpr hw⟩
        decide

theorem occupiedCount_add_empty (g : Grid) :
    occupiedCount g + countMark g " " = 9 := by
  unfold occupiedCount countMark
  have h : (Finset.univ.filter (fun rc : Fin 3 × Fin 3 => g rc.1 rc.2 ≠ " ")).card
      + (Finset.univ.filter
          (fun rc : Fin 3 × Fin 3 => ¬ g rc.1 rc.2 ≠ " ")).card
      = (Finset.univ : Finset (Fin 3 × Fin 3)).card :=
    Finset.filter_card_add_filter_neg_card_eq_card _
  have h2 : Finset.univ.filter (fun rc : Fin 3 × Fin 3 => ¬ g rc.1 rc.2 ≠ " ")
      = Finset.univ.filter (fun rc : Fin 3 × Fin 3 => g rc.1 rc.2 = " ") := by
    apply Finset.filter_congr
    intro rc _
    simp [ne_eq]
  rw [h2] at h
  have h3 : (Finset.univ : Finset (Fin 3 × Fin 3)).card = 9 := by decide
  omega

theorem all_filled_of_countE_zero (g : Grid) (h : countMark g " " = 0) :
    ∀ r c : Fin 3, g r c ≠ " " := by
  intro r c hcon
  unfold countMark at h
  rw [Finset.card_eq_zero] at h
  have hmem : (r, c) ∈ Finset.univ.filter
      (fun rc : Fin 3 × Fin 3 => g rc.1 rc.2 = " ") := by
    simp [hcon]
  rw [h] at hmem
  exact absurd hmem (Finset.not_mem_empty _)

theorem pyIdx3_neg (i : Int) (h0 : -3 ≤ i) (h3 : i < 0) :
    pyIdx3 i = some (finOf3 (i + 3)) := by
  unfold pyIdx3 finOf3
  rw [dif_neg (by omega), dif_pos (And.intro h0 h3),
    dif_pos (And.intro (by omega : (0:Int) ≤ i + 3) (by omega : i + 3 < 3))]

theorem legalRun_w4 :
    LegalRun boardXO [(0, 0), (1, 1), (0, 1), (1, 0)] w4 :=
  LegalRun.cons (by decide) (by decide)
    (show boardXO.move (0, 0) = MoveResult.ok w1 from rfl)
    (LegalRun.cons (by decide) (by decide)
      (show w1.move (1, 1) = MoveResult.ok w2 from rfl)
      (LegalRun.cons (by decide) (by decide)
        (show w2.move (0, 1) = MoveResult.ok w3 from rfl)
        (LegalRun.cons (by decide) (by decide)
          (show w3.move (1, 0) = MoveResult.ok w4 from rfl)
          (LegalRun.nil w4))))

theorem legalRun_e8 :
    LegalRun boardXO
      [(0, 0), (0, 1), (0, 2), (1, 1), (1, 0), (1, 2), (2, 1), (2, 0)] e8 :=
  LegalRun.cons (by decide) (by decide)
    (show boardXO.move (0, 0) = MoveResult.ok e1 from rfl)
    (LegalRun.cons (by decide) (by decide)
      (show e1.move (0, 1) = MoveResult.ok e2 from rfl)
      (LegalRun.cons (by decide) (by decide)
        (show e2.move (0, 2) = MoveResult.ok e3 from rfl)
        (LegalRun.cons (by decide) (by decide)
          (show e3.move (1, 1) = MoveResult.ok e4 from rfl)
          (LegalRun.cons (by decide) (by decide)
            (show e4.move (1, 0) = MoveResult.ok e5 from rfl)
            (LegalRun.cons (by decide) (by decide)
              (show e5.move (1, 2) = MoveResult.ok e6 from rfl)
              (LegalRun.cons (by decide) (by decide)
                (show e6.move (2, 1) = MoveResult.ok e7 from rfl)
                (LegalRun.cons (by decide) (by decide)
                  (show e7.move (2, 0) = MoveResult.ok e8 from rfl)
                  (LegalRun.nil e8))))))))

/-- C9: for every board state, `reset_board` empties all 9 cells, sets the
turn index to 0 and the occupied count to 0, keeps the players, and has no
error path. -/
theorem reset_board_clears (b : Board) :
    (∀ r c : Fin 3, (b.reset_board).grid r c = " ") ∧
    (b.reset_board).turn = 0 ∧ (b.reset_board).filled = 0 ∧
    (b.reset_board).players = b.players :=
  ⟨fun r c => rfl, rfl, rfl, rfl⟩

/-- C3: every in-range Position is denoted by some selector string, and
requesting an occupied Position is rejected with the occupied error while
the whole board state (grid, turn index, occupied count) is returned
unchanged. -/
theorem occupied_position_rejected :
    (∀ p : Int × Int, InRange p →
      ∃ s, ALLOWED_POSITIONS.lookup s = some p) ∧
    ∀ (b : Board) (s : String) (p : Int × Int),
      ALLOWED_POSITIONS.lookup s = some p → cellI b.grid p ≠ " " →
      apply_move b s = ApplyResult.invalid "Position is occupied" b := by
  constructor
  · rintro ⟨x, y⟩ ⟨h1, h2, h3, h4⟩
    have hx : x = 0 ∨ x = 1 ∨ x = 2 := by omega
    have hy : y = 0 ∨ y = 1 ∨ y = 2 := by omega
    rcases hx with rfl | rfl | rfl <;> rcases hy with rfl | rfl | rfl
    · exact ⟨"1", rfl⟩
    · exact ⟨"2", rfl⟩
    · exact ⟨"3", rfl⟩
    · exact ⟨"4", rfl⟩
    · exact ⟨"5", rfl⟩
    · exact ⟨"6", rfl⟩
    · exact ⟨"7", rfl⟩
    · exact ⟨"8", rfl⟩
    · exact ⟨"9", rfl⟩
  · intro b s p hl hocc
    unfold apply_move validate_move
    rw [hl]
    dsimp only
    rw [if_pos hocc]

theorem occupied_position_rejected_witness :
    (∃ s, ALLOWED_POSITIONS.lookup s = some ((1 : Int), (2 : Int))) ∧
    apply_move w1 "1" = ApplyResult.invalid "Position is occupied" w1 :=
  ⟨occupied_position_rejected.1 (1, 2) (by decide),
   occupied_position_rejected.2 w1 "1" (0, 0) rfl (by decide)⟩

/-- C4 (amended): `Board.move` itself performs no bounds check (see the
counterexample); the out-of-range rejection lives in `_validate_move`,
which refuses every selector string outside ALLOWED_POSITIONS with the
does-not-exist error before `Board.move` is reached, returning the board
unchanged. -/
theorem unmapped_selector_rejected (b : Board) (s : String)
    (h : ALLOWED_POSITIONS.lookup s = none) :
    apply_move b s = ApplyResult.invalid "Position does not exist" b := by
  unfold apply_move validate_move
  rw [h]

theorem unmapped_selector_rejected_witness :
    apply_move boardXO "0" =
      ApplyResult.invalid "Position does not exist" boardXO :=
  unmapped_selector_rejected boardXO "0" rfl

/-- C4 counterexample: at the Position (-1,-1), whose components are
outside 0..2, `Board.move` on a fresh board does not fail at all — it
writes X into the aliased cell (2,2) and returns Continue, changing the
grid. -/
theorem out_of_range_not_rejected_cex :
    boardXO.move (-1, -1) =
      MoveResult.ok ⟨setCell boardXO.grid 2 2 "X", 1, 1, ("X", "O")⟩ ∧
    boardXO.grid 2 2 = " " ∧
    setCell boardXO.grid 2 2 "X" 2 2 = "X" := ⟨rfl, rfl, rfl⟩

/-- C5: the turn index equals `n % 2` after `n` successful moves (strict
alternation 0,1,0,1,... from a fresh board); a Continue move flips it; a
`Win` or `GameOver` move leaves it unchanged; a rejected move returns the
board unchanged. -/
theorem turn_alternation :
    (∀ pl, MarksOK pl → ∀ (ms : List (Int × Int)) (b : Board),
      LegalRun (Board.init pl) ms b → b.turn = ms.length % 2) ∧
    (∀ (b b2 : Board) (p : Int × Int),
      b.move p = MoveResult.ok b2 → b2.turn = flipTurn b.turn) ∧
    (∀ (b b2 : Board) (m : String) (p : Int × Int),
      b.move p = MoveResult.win m b2 → b2.turn = b.turn) ∧
    (∀ (b b2 : Board) (p : Int × Int),
      b.move p = MoveResult.gameOver b2 → b2.turn = b.turn) ∧
    (∀ (b b2 : Board) (s msg : String),
      apply_move b s = ApplyResult.invalid msg b2 → b2 = b) := by
  refine ⟨?_, ?_, ?_, ?_, ?_⟩
  · intro pl hpl ms b hrun
    exact (reach_of_run pl hpl hrun).turn
  · intro b b2 p h
    rcases move_inv b p with hie | ⟨r, c, -, -, hw | hg | ho⟩
    · rw [hie] at h; exact absurd h (by simp)
    · rw [hw] at h; exact absurd h (by simp)
    · rw [hg] at h; exact absurd h (by simp)
    · rw [ho] at h
      injection h with h2
      rw [← h2]
  · intro b b2 m p h
    rcases move_inv b p with hie | ⟨r, c, -, -, hw | hg | ho⟩
    · rw [hie] at h; exact absurd h (by simp)
    · rw [hw] at h
      injection h with h1 h2
      rw [← h2]
    · rw [hg] at h; exact absurd h (by simp)
    · rw [ho] at h; exact absurd h (by simp)
  · intro b b2 p h
    rcases move_inv b p with hie | ⟨r, c, -, -, hw | hg | ho⟩
    · rw [hie] at h; exact absurd h (by simp)
    · rw [hw] at h; exact absurd h (by simp)
    · rw [hg] at h
      injection h with h2
      rw [← h2]
    · rw [ho] at h; exact absurd h (by simp)
  · intro b b2 s msg h
    unfold apply_move at h
    cases hv : validate_move b s with
    | error m2 =>
        rw [hv] at h
        injection h with h1 h2
        exact h2.symm
    | ok p =>
        rw [hv] at h
        exact absurd h (by simp)

theorem turn_alternation_witness :
    w4.turn = [((0 : Int), (0 : Int)), (1, 1), (0, 1), (1, 0)].length % 2 ∧
    w1.turn = flipTurn boardXO.turn :=
  ⟨turn_alternation.1 ("X", "O") (by decide) _ _ legalRun_w4,
   turn_alternation.2.1 boardXO w1 (0, 0) rfl⟩

/-- C10: `Board.move` does no bounds checking of its own: a Position with
both components in -3..-1 succeeds and writes the current player's mark
into the cell the negative indices alias to (component + 3), while a
component outside -3..2 raises a raw IndexError. -/
theorem negative_index_aliasing :
    (∀ (b : Board) (p : Int × Int),
      -3 ≤ p.1 → p.1 ≤ -1 → -3 ≤ p.2 → p.2 ≤ -1 →
      ∃ b2, boardOf (b.move p) = some b2 ∧
        b2.grid (finOf3 (p.1 + 3)) (finOf3 (p.2 + 3)) = pickPlayer b) ∧
    (∀ (b : Board) (p : Int × Int),
      p.1 < -3 ∨ 2 < p.1 ∨ p.2 < -3 ∨ 2 < p.2 →
      b.move p = MoveResult.indexError) := by
  constructor
  · intro b p h1 h2 h3 h4
    have hm1 := pyIdx3_neg p.1 h1 (by omega)
    have hm2 := pyIdx3_neg p.2 h3 (by omega)
    unfold Board.move
    rw [hm1, hm2]
    dsimp only
    split_ifs
    · exact ⟨_, rfl, setCell_self ..⟩
    · exact ⟨_, rfl, setCell_self ..⟩
    · exact ⟨_, rfl, setCell_self ..⟩
  · intro b p h
    have hnone : pyIdx3 p.1 = none ∨ pyIdx3 p.2 = none := by
      rcases h with h | h | h | h
      · refine Or.inl ?_
        unfold pyIdx3
        rw [dif_neg (by omega), dif_neg (by omega)]
      · refine Or.inl ?_
        unfold pyIdx3
        rw [dif_neg (by omega), dif_neg (by omega)]
      · refine Or.inr ?_
        unfold pyIdx3
        rw [dif_neg (by omega), dif_neg (by omega)]
      · refine Or.inr ?_
        unfold pyIdx3
        rw [dif_neg (by omega), dif_neg (by omega)]
    unfold Board.move
    rcases hnone with hn | hn
    · rw [hn]
    · rw [hn]
      cases pyIdx3 p.1 <;> rfl

theorem negative_index_aliasing_witness :
    (∃ b2, boardOf (boardXO.move (-1, -1)) = some b2 ∧
      b2.grid (finOf3 ((-1) + 3)) (finOf3 ((-1) + 3)) = pickPlayer boardXO) ∧
    boardXO.move (5, 5) = MoveResult.indexError :=
  ⟨negative_index_aliasing.1 boardXO (-1, -1) (by decide) (by decide)
      (by decide) (by decide),
   negative_index_aliasing.2 boardXO (5, 5) (Or.inr (Or.inl (by decide)))⟩

/-- C1: on any legal continuation of a legal run from a fresh board,
`Board.move` raises `Win` exactly when the just-written grid holds a full
axis of one mark; since no full axis exists before the move (invariant of
legal runs), this is exactly the move that completes the line, and the
carried mark is always the mark of the player who just moved. -/
theorem win_exact_on_completion (pl : String × String) (hpl : MarksOK pl)
    {ms : List (Int × Int)} {b : Board}
    (hrun : LegalRun (Board.init pl) ms b) {p : Int × Int} (hp : InRange p)
    (hemp : cellI b.grid p = " ") :
    ((∃ b2, b.move p = MoveResult.win (pickPlayer b) b2) ↔
      WinningLine (b.placed p).grid) ∧
    ∀ m b2, b.move p = MoveResult.win m b2 → m = pickPlayer b := by
  have hR := reach_of_run pl hpl hrun
  obtain ⟨hwin, hgo, hok⟩ := move_cases pl hpl hR hp hemp
  have hnotwin : ¬ WinningLine (b.placed p).grid →
      ∀ m b2, b.move p ≠ MoveResult.win m b2 := by
    intro hnwl m b2
    by_cases h9 : ms.length + 1 = 9
    · rw [hgo hnwl h9]; simp
    · rw [hok hnwl h9]; simp
  constructor
  · constructor
    · rintro ⟨b2, hw⟩
      by_contra hnwl
      exact hnotwin hnwl _ _ hw
    · intro hwl
      exact ⟨_, hwin hwl⟩
  · intro m b2 hw
    by_cases hwl : WinningLine (b.placed p).grid
    · rw [hwin hwl] at hw
      injection hw with h1 h2
      exact h1.symm
    · exact absurd hw (hnotwin hwl m b2)

theorem win_exact_on_completion_witness :
    ∃ b2, w4.move (0, 2) = MoveResult.win (pickPlayer w4) b2 :=
  (win_exact_on_completion ("X", "O") (by decide) legalRun_w4 (by decide)
      (by decide)).1.mpr
    ⟨[(0, 0), (0, 1), (0, 2)], by decide, by decide, "X", by decide⟩

/-- C2: on any legal continuation of a legal run from a fresh board,
`Board.move` raises `GameOver` (Draw) exactly when the move leaves no full
axis and fills the 9th square; in particular a 9th move that completes a
line raises `Win`, not `GameOver`. -/
theorem draw_exact_on_full_grid (pl : String × String) (hpl : MarksOK pl)
    {ms : List (Int × Int)} {b : Board}
    (hrun : LegalRun (Board.init pl) ms b) {p : Int × Int} (hp : InRange p)
    (hemp : cellI b.grid p = " ") :
    (∃ b2, b.move p = MoveResult.gameOver b2) ↔
      (¬ WinningLine (b.placed p).grid ∧ ms.length + 1 = 9) := by
  have hR := reach_of_run pl hpl hrun
  obtain ⟨hwin, hgo, hok⟩ := move_cases pl hpl hR hp hemp
  constructor
  · rintro ⟨b2, hg⟩
    by_cases hwl : WinningLine (b.placed p).grid
    · rw [hwin hwl] at hg
      exact absurd hg (by simp)
    by_cases h9 : ms.length + 1 = 9
    · exact ⟨hwl, h9⟩
    · rw [hok hwl h9] at hg
      exact absurd hg (by simp)
  · rintro ⟨hwl, h9⟩
    exact ⟨_, hgo hwl h9⟩

theorem draw_exact_on_full_grid_witness :
    ∃ b2, e8.move (2, 2) = MoveResult.gameOver b2 :=
  (draw_exact_on_full_grid ("X", "O") (by decide) legalRun_e8 (by decide)
      (by decide)).mpr
    ⟨fun hwl => absurd ((winningLine_iff _).mp hwl) (by decide), by decide⟩

/-- C6: after any `n`-move legal run from a fresh board the filled-square
counter equals `n`, equals the number of non-empty grid cells, and never
exceeds 9. -/
theorem filled_count_matches_moves (pl : String × String) (hpl : MarksOK pl)
    {ms : List (Int × Int)} {b : Board}
    (hrun : LegalRun (Board.init pl) ms b) :
    b.filled = ms.length ∧ occupiedCount b.grid = ms.length ∧
    b.filled ≤ 9 := by
  have hR := reach_of_run pl hpl hrun
  have hocc := occupiedCount_add_empty b.grid
  have hE := hR.countE
  have hf := hR.filled
  exact ⟨hf, by omega, by omega⟩

theorem filled_count_matches_moves_witness :
    e8.filled = 8 ∧ occupiedCount e8.grid = 8 ∧ e8.filled ≤ 9 := by
  have h := filled_count_matches_moves ("X", "O") (by decide) legalRun_e8
  simpa using h

/-- C7: on any legal continuation of a legal run, the implemented
evaluation (checking only the axes through the just-played Position, and
only once 5 squares are filled) returns the same Outcome as the brute-force
scan of the spec over all 8 lines of the whole board after the move. -/
theorem optimized_check_eq_brute_scan (pl : String × String)
    (hpl : MarksOK pl) {ms : List (Int × Int)} {b : Board}
    (hrun : LegalRun (Board.init pl) ms b) {p : Int × Int} (hp : InRange p)
    (hemp : cellI b.grid p = " ") :
    outcomeOf (b.move p) =
      some (brute_scan (b.placed p).grid (pickPlayer b) (ms.length + 1)) := by
  have hR := reach_of_run pl hpl hrun
  obtain ⟨hwin, hgo, hok⟩ := move_cases pl hpl hR hp hemp
  by_cases hwl : WinningLine (b.placed p).grid
  · rw [hwin hwl]
    unfold brute_scan
    rw [if_pos ((specAny_iff _).mpr hwl)]
    rfl
  · have hnot : ¬ specLines.any (specLineWin (b.placed p).grid) = true :=
      fun hcon => hwl ((specAny_iff _).mp hcon)
    by_cases h9 : ms.length + 1 = 9
    · rw [hgo hwl h9]
      unfold brute_scan
      rw [if_neg hnot, if_pos h9]
      rfl
    · rw [hok hwl h9]
      unfold brute_scan
      rw [if_neg hnot, if_neg h9]
      rfl

theorem optimized_check_eq_brute_scan_witness :
    outcomeOf (w4.move (0, 2)) =
      some (brute_scan (w4.placed (0, 2)).grid (pickPlayer w4) 5) := by
  have h := optimized_check_eq_brute_scan ("X", "O") (by decide) legalRun_w4
    (show InRange ((0 : Int), (2 : Int)) by decide)
    (show cellI w4.grid (0, 2) = " " by decide)
  simpa using h

/-- C8 counterexample: after the winning 5th move of the scenario (a
reachable state of a legal run), a further `apply_move` on the same board,
with no reset in between, is accepted and returns Continue instead of
failing. -/
theorem post_win_move_accepted_cex :
    LegalRun boardXO [(0, 0), (1, 1), (0, 1), (1, 0)] w4 ∧
    w4.move (0, 2) = MoveResult.win "X" wonBoard ∧
    apply_move wonBoard "9" = ApplyResult.moved (MoveResult.ok
      ⟨setCell wonBoard.grid 2 2 "X", 1, 6, ("X", "O")⟩) :=
  ⟨legalRun_w4, rfl, rfl⟩

/-- C8 (amended): the core itself rejects post-terminal moves only after a
Draw — a `GameOver` of a legal run leaves every cell occupied, and on a
fully occupied board every `apply_move` fails with an `InvalidPosition`
error, board unchanged.  After a `Win` the board still has empty cells and
further moves are accepted, so terminality after a Win is enforced by the
orchestrator alone (it resets or discards the board before looping). -/
theorem full_board_always_rejected :
    (∀ (b : Board) (s : String), (∀ r c : Fin 3, b.grid r c ≠ " ") →
      ∃ msg, apply_move b s = ApplyResult.invalid msg b) ∧
    (∀ pl, MarksOK pl → ∀ (ms : List (Int × Int)) (b : Board),
      LegalRun (Board.init pl) ms b → ∀ (p : Int × Int) (b2 : Board),
        InRange p → cellI b.grid p = " " →
        b.move p = MoveResult.gameOver b2 →
        ∀ r c : Fin 3, b2.grid r c ≠ " ") := by
  constructor
  · intro b s hfull
    cases hl : ALLOWED_POSITIONS.lookup s with
    | none =>
        refine ⟨"Position does not exist", ?_⟩
        unfold apply_move validate_move
        rw [hl]
    | some p =>
        have hpr := lookup_inRange s p hl
        have hocc : cellI b.grid p ≠ " " := by
          rw [cellI_inRange b.grid p hpr]
          exact hfull _ _
        refine ⟨"Position is occupied", ?_⟩
        unfold apply_move validate_move
        rw [hl]
        dsimp only
        rw [if_pos hocc]
  · intro pl hpl ms b hrun p b2 hp hemp hgo
    have hR := reach_of_run pl hpl hrun
    obtain ⟨hwin, hgo2, hok⟩ := move_cases pl hpl hR hp hemp
    by_cases hwl : WinningLine (b.placed p).grid
    · rw [hwin hwl] at hgo
      exact absurd hgo (by simp)
    by_cases h9 : ms.length + 1 = 9
    · rw [hgo2 hwl h9] at hgo
      injection hgo with hb2
      subst hb2
      obtain ⟨-, -, -, -, -, -, hw7⟩ := placed_props pl hpl hR hp hemp
      rw [h9] at hw7
      have hz : countMark (b.placed p).grid " " = 0 := by omega
      intro r c
      exact all_filled_of_countE_zero _ hz r c
    · rw [hok hwl h9] at hgo
      exact absurd hgo (by simp)

theorem full_board_always_rejected_witness :
    (∃ msg, apply_move e9 "5" = ApplyResult.invalid msg e9) ∧
    (∀ r c : Fin 3, e9.grid r c ≠ " ") :=
  ⟨full_board_always_rejected.1 e9 "5" (by decide),
   full_board_always_rejected.2 ("X", "O") (by decide) _ _ legalRun_e8
     (2, 2) e9 (by decide) (by decide) rfl⟩
